import Mathlib

/-!
Verification of the quepy application core (`quepy/quepyapp.py`).

The Python source is shallowly embedded below.  Python text is `PyStr`
(Lean `String`); a Python exception that escapes an operation is the
`Exn` value carried in an `Except`/`Option Exn` field; module namespaces
are association lists from attribute name to value, with `dir()`
returning the alphabetically sorted name list, as the Python
documentation guarantees; rule variants, the tagger and serializers are
the external collaborators of the spec and appear as opaque functions
over type parameters `W` (tagged words), `E` (semantic expressions) and
`U` (rule userdata).
-/

/-- Python text. -/
abbrev PyStr := String

/-- An escaping Python exception, as far as the core distinguishes them:
`quepy.tagger.TaggingError`, the built-in `TypeError`, and anything else. -/
inductive Exn : Type
  | taggingError
  | typeError
  | other (code : Nat)
deriving DecidableEq, Repr

/-- Warning/error log lines the source emits (`logger.warning` at
`quepyapp.py:168`, `logger.error` at `quepyapp.py:157`).  Debug-level
lines are not modelled. -/
inductive LogEvent : Type
  | errorNoSerializer (lang : PyStr)
  | warnCantParse (question : PyStr)
deriving DecidableEq, Repr

/-- A rule-variant instance: `weight` plus the matching operation
`get_semantics(words)` which returns a `(expression, userdata)` pair —
expression `none` meaning no match — or raises. -/
structure Rule (W E U : Type) : Type where
  weight : Int
  get_semantics : List W → Except Exn (Option E × U)

/-- A serializer (printout) module: attribute lookup by name; `none`
models `getattr` raising `AttributeError`.  A found attribute is a
serializer function `expression -> text` that may raise. -/
abbrev PrintoutModule (E : Type) := PyStr → Option (E → Except Exn PyStr)

/-- The loaded application state used by the query facade: the tagger,
the ranked rule list, the optional app-specific printout module, the
global `quepy.printout` module (`sys.modules["quepy.printout"]`) and the
external `encoding_flexible_conversion` function. -/
structure QuepyApp (W E U : Type) : Type where
  tagger : PyStr → Except Exn (List W)
  rules : List (Rule W E U)
  printout_module : Option (PrintoutModule E)
  global_printout : PrintoutModule E
  enc : PyStr → PyStr

/-- The `(target, query, userdata)` triple yielded by the facade;
`target` is always `None` in the source. -/
abbrev Triple (U : Type) := Option PyStr × Option PyStr × Option U

/-- Python attribute lookup `getattr(module, k)` on an association-list
namespace, `none` when the attribute is missing. -/
def getattrNs {α : Type} : List (PyStr × α) → PyStr → Option α
  | [], _ => none
  | (n, v) :: rest, k => if n = k then some v else getattrNs rest k

/-- The code points of a string, for Python's lexicographic string order. -/
def strCodes (s : PyStr) : List Nat := s.data.map Char.toNat

/-- Lexicographic `≤` on code-point lists (Python string comparison). -/
def codeLe : List Nat → List Nat → Bool
  | [], _ => true
  | _ :: _, [] => false
  | a :: as, b :: bs => if a < b then true else if b < a then false else codeLe as bs

/-- Python's `≤` on attribute names. -/
def nameLe (a b : PyStr) : Bool := codeLe (strCodes a) (strCodes b)

/-- Insertion step of the ascending sort used to model `dir()`/`sorted()`. -/
def insertAscBy {α : Type} (le : α → α → Bool) (a : α) : List α → List α
  | [] => [a]
  | b :: bs => if le b a then b :: insertAscBy le a bs else a :: b :: bs

/-- Ascending insertion sort, modelling Python's `sorted()`. -/
def sortAscBy {α : Type} (le : α → α → Bool) : List α → List α
  | [] => []
  | a :: as => insertAscBy le a (sortAscBy le as)

/-- Python `dir(module)`: the alphabetically sorted list of attribute
names of the namespace (guaranteed sorted by the Python docs). -/
def dirNames {α : Type} (m : List (PyStr × α)) : List PyStr :=
  sortAscBy nameLe (m.map Prod.fst)

/-- Insertion step of the stable descending sort: the new element is
placed before the first element whose key is not strictly greater, so an
element inserted later (= earlier in the original list) lands before
equal-key elements already present. -/
def insertDesc {α : Type} (key : α → Int) (a : α) : List α → List α
  | [] => [a]
  | b :: bs => if key a < key b then b :: insertDesc key a bs else a :: b :: bs

/-- Stable sort by key descending, modelling Python's stable
`list.sort(key=..., reverse=True)` (`quepyapp.py:102`). -/
def pySortDesc {α : Type} (key : α → Int) : List α → List α
  | [] => []
  | a :: as => insertDesc key a (pySortDesc key as)

/-- Tag every element of a list with its position, starting at `i`. -/
def withIdx {α : Type} (i : Nat) : List α → List (Nat × α)
  | [] => []
  | a :: as => (i, a) :: withIdx (i + 1) as

/-- A rule-variant class definition: zero-argument instantiation
(`element()` at `quepyapp.py:98`), which may raise. -/
structure RuleClassDef (W E U : Type) : Type where
  init : Except Exn (Rule W E U)

/-- A symbol found in the regex-module namespace, classified as the
`issubclass` test at `quepyapp.py:95` sees it: a concrete subclass of
`RegexTemplate`; `RegexTemplate` itself; some other type (`issubclass`
returns `False`); or a non-type (`issubclass` raises `TypeError`). -/
inductive NsSym (W E U : Type) : Type
  | ruleClass (c : RuleClassDef W E U)
  | base
  | otherType
  | nonType

/-- The discovery loop of `QuepyApp.__init__` (`quepyapp.py:90-100`)
over an attribute-name list: symbols that are not concrete subclasses
are skipped; a qualifying class is instantiated inside the same
`try ... except TypeError: continue`, so a `TypeError` raised by the
instantiation is silently swallowed, while any other exception
propagates. -/
def discoverLoop {W E U : Type} (ns : List (PyStr × NsSym W E U)) :
    List PyStr → Except Exn (List (Rule W E U))
  | [] => Except.ok []
  | k :: ks =>
    match getattrNs ns k with
    | none => discoverLoop ns ks
    | some NsSym.base => discoverLoop ns ks
    | some NsSym.otherType => discoverLoop ns ks
    | some NsSym.nonType => discoverLoop ns ks
    | some (NsSym.ruleClass c) =>
      match c.init with
      | Except.ok r =>
        match discoverLoop ns ks with
        | Except.ok rest => Except.ok (r :: rest)
        | Except.error e => Except.error e
      | Except.error Exn.typeError => discoverLoop ns ks
      | Except.error e => Except.error e

/-- Rule discovery over `dir(self._regex_module)` (`quepyapp.py:91`). -/
def discoverRules {W E U : Type} (ns : List (PyStr × NsSym W E U)) :
    Except Exn (List (Rule W E U)) :=
  discoverLoop ns (dirNames ns)

/-- Instrumented variant of `discoverLoop` that records, next to each
discovered rule, the namespace attribute name it came from. -/
def discoverLoopNamed {W E U : Type} (ns : List (PyStr × NsSym W E U)) :
    List PyStr → Except Exn (List (PyStr × Rule W E U))
  | [] => Except.ok []
  | k :: ks =>
    match getattrNs ns k with
    | none => discoverLoopNamed ns ks
    | some NsSym.base => discoverLoopNamed ns ks
    | some NsSym.otherType => discoverLoopNamed ns ks
    | some NsSym.nonType => discoverLoopNamed ns ks
    | some (NsSym.ruleClass c) =>
      match c.init with
      | Except.ok r =>
        match discoverLoopNamed ns ks with
        | Except.ok rest => Except.ok ((k, r) :: rest)
        | Except.error e => Except.error e
      | Except.error Exn.typeError => discoverLoopNamed ns ks
      | Except.error e => Except.error e

/-- Named rule discovery over `dir()` order. -/
def discoverRulesNamed {W E U : Type} (ns : List (PyStr × NsSym W E U)) :
    Except Exn (List (PyStr × Rule W E U)) :=
  discoverLoopNamed ns (dirNames ns)

/-- Whether a namespace symbol is a qualifying rule definition: a
concrete subclass of the base capability, the base itself excluded. -/
def qualifies {W E U : Type} : NsSym W E U → Bool
  | NsSym.ruleClass _ => true
  | _ => false

/-- The number of qualifying rule definitions in a namespace. -/
def countQualifying {W E U : Type} (ns : List (PyStr × NsSym W E U)) : Nat :=
  (ns.filter fun p => qualifies p.2).length

/-- The rule weight, the sort key of `quepyapp.py:102`. -/
def ruleW {W E U : Type} (r : Rule W E U) : Int := r.weight

/-- `QuepyApp.__init__` rule registry construction (`quepyapp.py:90-102`):
discovery in `dir()` order followed by the stable descending sort on
weight. -/
def buildRules {W E U : Type} (ns : List (PyStr × NsSym W E U)) :
    Except Exn (List (Rule W E U)) :=
  match discoverRules ns with
  | Except.ok rs => Except.ok (pySortDesc ruleW rs)
  | Except.error e => Except.error e

/-- The single-quote character. -/
def squote : Char := Char.ofNat 39

/-- The double-quote character. -/
def dquote : Char := Char.ofNat 34

/-- The backslash character. -/
def backslash : Char := Char.ofNat 92

/-- Python `s.lower()` (ASCII case mapping, character by character). -/
def pyLower (s : PyStr) : PyStr := String.mk (s.data.map Char.toLower)

/-- Python `s.upper()` (ASCII case mapping, character by character). -/
def pyUpper (s : PyStr) : PyStr := String.mk (s.data.map Char.toUpper)

/-- Python `s.replace(old, new)` for a one-character pattern: every
occurrence of `c` is replaced by the string `r`. -/
def pyReplaceChar (s : PyStr) (c : Char) (r : PyStr) : PyStr :=
  String.mk (s.data.foldr (fun ch acc => if ch = c then r.data ++ acc else ch :: acc) [])

/-- `question_sanitize` (`quepyapp.py:59-62`).  The first source line is
`question.replace("'", "\'")`: the Python literal `"\'"` denotes the
plain apostrophe again, so this call replaces the single quote with
itself.  The second replaces the double quote with backslash plus
double quote. -/
def question_sanitize (question : PyStr) : PyStr :=
  let question := pyReplaceChar question squote (String.singleton squote)
  pyReplaceChar question dquote (String.mk [backslash, dquote])

/-- The serializer attribute name, `"expression_to_%s" % query_lang.lower()`
(`quepyapp.py:138`). -/
def serializerName (query_lang : PyStr) : PyStr :=
  "expression_to_" ++ pyLower query_lang

/-- Serializer resolution (`quepyapp.py:134-146`): try the app-specific
printout module when one was supplied, swallowing `AttributeError`;
if that produced nothing, try the global `quepy.printout` module. -/
def resolveSerializer {W E U : Type} (app : QuepyApp W E U) (query_lang : PyStr) :
    Option (E → Except Exn PyStr) :=
  match
    (match app.printout_module with
     | some pm => pm (serializerName query_lang)
     | none => none)
  with
  | some f => some f
  | none => app.global_printout (serializerName query_lang)

/-- Observable outcome of fully consuming the matching loop: the rules
whose `get_semantics` was invoked (in order), the `(target, query,
userdata)` triples yielded (in order), and the exception, if one escaped. -/
structure LoopRun (W E U : Type) : Type where
  invoked : List (Rule W E U)
  triples : List (Triple U)
  exn : Option Exn

/-- The rule loop of `_iter_compiled_forms` (`quepyapp.py:175-178`)
interleaved with the per-yield serializer call of `get_queries`
(`quepyapp.py:149-155`), fully consumed: each rule is asked in order;
a non-empty expression is serialized and yielded as `(None, query,
userdata)`; an exception from `get_semantics` or from the serializer
stops the iteration and escapes. -/
def pipeLoop {W E U : Type} (f : E → Except Exn PyStr) :
    List (Rule W E U) → List W → LoopRun W E U
  | [], _ => ⟨[], [], none⟩
  | r :: rs, ws =>
    match r.get_semantics ws with
    | Except.error e => ⟨[r], [], some e⟩
    | Except.ok (none, _) =>
      let rest := pipeLoop f rs ws
      ⟨r :: rest.invoked, rest.triples, rest.exn⟩
    | Except.ok (some e, ud) =>
      match f e with
      | Except.error ex => ⟨[r], [], some ex⟩
      | Except.ok q =>
        let rest := pipeLoop f rs ws
        ⟨r :: rest.invoked, (none, some q, some ud) :: rest.triples, rest.exn⟩

/-- Observable outcome of pulling at most one element from the
generator: invoked rules, the first triple if one was produced, and the
exception, if one escaped before the first yield. -/
structure FirstRun (W E U : Type) : Type where
  invoked : List (Rule W E U)
  result : Option (Triple U)
  exn : Option Exn

/-- The same loop consumed for a single element, as `get_query` does
(`quepyapp.py:118-119`): iteration stops at the first yield, so rules
ranked after the first successful match are never evaluated. -/
def firstMatch {W E U : Type} (f : E → Except Exn PyStr) :
    List (Rule W E U) → List W → FirstRun W E U
  | [], _ => ⟨[], none, none⟩
  | r :: rs, ws =>
    match r.get_semantics ws with
    | Except.error e => ⟨[r], none, some e⟩
    | Except.ok (none, _) =>
      let rest := firstMatch f rs ws
      ⟨r :: rest.invoked, rest.result, rest.exn⟩
    | Except.ok (some e, ud) =>
      match f e with
      | Except.error ex => ⟨[r], none, some ex⟩
      | Except.ok q => ⟨[r], some (none, some q, some ud), none⟩

/-- Observable outcome of a fully consumed `get_queries` call. -/
structure QueriesRun (W E U : Type) : Type where
  logs : List LogEvent
  invoked : List (Rule W E U)
  triples : List (Triple U)
  exn : Option Exn

/-- `QuepyApp.get_queries` (`quepyapp.py:122-158`) composed with
`_iter_compiled_forms` (`quepyapp.py:160-178`), fully consumed: resolve
the serializer once; on failure log an error and yield nothing; else
normalize the encoding, tag (a `TaggingError` is logged as a warning and
ends the sequence empty; any other tagger exception escapes), then run
the rule loop. -/
def get_queries {W E U : Type} (app : QuepyApp W E U)
    (question query_lang : PyStr) : QueriesRun W E U :=
  match resolveSerializer app query_lang with
  | none => ⟨[LogEvent.errorNoSerializer query_lang], [], [], none⟩
  | some f =>
    let question := app.enc question
    match app.tagger question with
    | Except.error Exn.taggingError => ⟨[LogEvent.warnCantParse question], [], [], none⟩
    | Except.error e => ⟨[], [], [], some e⟩
    | Except.ok words =>
      let run := pipeLoop f app.rules words
      ⟨[], run.invoked, run.triples, run.exn⟩

/-- Observable outcome of a `get_query` call. -/
structure QueryRun (W E U : Type) : Type where
  logs : List LogEvent
  invoked : List (Rule W E U)
  result : Triple U
  exn : Option Exn

/-- `QuepyApp.get_query` (`quepyapp.py:104-120`): sanitize the question,
then consume at most one element of the `get_queries` generator,
returning it, or `(None, None, None)` when the sequence is empty. -/
def get_query {W E U : Type} (app : QuepyApp W E U)
    (question query_lang : PyStr) : QueryRun W E U :=
  let question := question_sanitize question
  match resolveSerializer app query_lang with
  | none => ⟨[LogEvent.errorNoSerializer query_lang], [], (none, none, none), none⟩
  | some f =>
    let question := app.enc question
    match app.tagger question with
    | Except.error Exn.taggingError =>
      ⟨[LogEvent.warnCantParse question], [], (none, none, none), none⟩
    | Except.error e => ⟨[], [], (none, none, none), some e⟩
    | Except.ok words =>
      let fm := firstMatch f app.rules words
      ⟨[], fm.invoked, fm.result.getD (none, none, none), fm.exn⟩

/-- A settings-module attribute value: a byte string (Python 2 `str`,
the `isinstance(value, str)` branch of `quepyapp.py:189`) or anything
else, kept opaque. -/
inductive Value : Type
  | str (s : PyStr)
  | other (n : Int)
deriving DecidableEq, Repr

/-- The per-value normalization of `_save_settings_values`
(`quepyapp.py:188-190`): textual values go through
`encoding_flexible_conversion`, others are copied untouched. -/
def normalizeValue (enc : PyStr → PyStr) : Value → Value
  | Value.str s => Value.str (enc s)
  | v => v

/-- `setattr(settings, k, v)` on the shared namespace viewed as a map. -/
def setattrFun (sh : PyStr → Option Value) (k : PyStr) (v : Value) :
    PyStr → Option Value :=
  fun k' => if k' = k then some v else sh k'

/-- The loop of `_save_settings_values` (`quepyapp.py:186-191`) over an
attribute-name list: names that equal their own upper-casing have their
value copied (normalized when textual) into the shared namespace. -/
def settingsLoop (enc : PyStr → PyStr) (m : List (PyStr × Value)) :
    List PyStr → (PyStr → Option Value) → (PyStr → Option Value)
  | [], sh => sh
  | k :: ks, sh =>
    settingsLoop enc m ks
      (if pyUpper k = k then
        match getattrNs m k with
        | some v => setattrFun sh k (normalizeValue enc v)
        | none => sh
      else sh)

/-- `_save_settings_values` (`quepyapp.py:180-191`): iterate
`dir(self._settings_module)` and propagate the upper-case-named values. -/
def saveSettingsValues (enc : PyStr → PyStr) (m : List (PyStr × Value))
    (sh : PyStr → Option Value) : PyStr → Option Value :=
  settingsLoop enc m (dirNames m) sh

/-- A serializer function used by the concrete test applications. -/
def cexSer : Nat → Except Exn PyStr := fun _ => Except.ok "Q"

/-- A global printout module exposing only `expression_to_sparql`. -/
def cexGlobal : PrintoutModule Nat :=
  fun n => if n = "expression_to_sparql" then some cexSer else none

/-- A rule that matches exactly the sanitized form of the question
consisting of one double quote. -/
def cexRule2 : Rule PyStr Nat Nat :=
  ⟨1, fun ws => Except.ok (if ws = ["\\\""] then some 7 else none, 0)⟩

/-- Concrete application whose tagger returns the question as the single
token, used to separate `get_query` from `get_queries` on unsanitized
input. -/
def cexApp2 : QuepyApp PyStr Nat Nat :=
  ⟨fun q => Except.ok [q], [cexRule2], none, cexGlobal, id⟩

/-- First rule of the invocation-order test: never matches. -/
def w3r1 : Rule PyStr Nat Nat := ⟨3, fun _ => Except.ok (none, 0)⟩

/-- Second rule of the invocation-order test: always matches. -/
def w3r2 : Rule PyStr Nat Nat := ⟨2, fun _ => Except.ok (some 7, 1)⟩

/-- Third rule of the invocation-order test: would match, but must never
be asked. -/
def w3r3 : Rule PyStr Nat Nat := ⟨1, fun _ => Except.ok (some 8, 2)⟩

/-- Application with three ranked rules of which the second matches. -/
def w3app : QuepyApp PyStr Nat Nat :=
  ⟨fun q => Except.ok [q], [w3r1, w3r2, w3r3], none, cexGlobal, id⟩

/-- Application with no serializer for any language. -/
def w4app : QuepyApp PyStr Nat Nat :=
  ⟨fun q => Except.ok [q], [], none, fun _ => none, id⟩

/-- Application whose tagger always raises `TaggingError`. -/
def w5app : QuepyApp PyStr Nat Nat :=
  ⟨fun _ => Except.error Exn.taggingError, [], none, cexGlobal, id⟩

/-- Application whose tagger raises an exception other than
`TaggingError`. -/
def w10app : QuepyApp PyStr Nat Nat :=
  ⟨fun _ => Except.error (Exn.other 3), [], none, cexGlobal, id⟩

/-- Namespace with one qualifying rule definition whose zero-argument
instantiation raises `TypeError`. -/
def ns1 : List (PyStr × NsSym Unit Unit Unit) :=
  [("Broken", NsSym.ruleClass ⟨Except.error Exn.typeError⟩)]

/-- Namespace like `ns1`, used for the instantiation-failure policy. -/
def ns8 : List (PyStr × NsSym Unit Unit Unit) :=
  [("Bad", NsSym.ruleClass ⟨Except.error Exn.typeError⟩)]

/-- Namespace with one qualifying rule definition whose instantiation
raises an exception that is not a `TypeError`. -/
def ns8b : List (PyStr × NsSym Unit Unit Unit) :=
  [("Crash", NsSym.ruleClass ⟨Except.error (Exn.other 7)⟩)]

/-- Weight-5 rule discovered first (name `RuleA`). -/
def w1rA : Rule Unit Unit Unit := ⟨5, fun _ => Except.ok (none, ())⟩

/-- Weight-5 rule discovered second (name `RuleB`). -/
def w1rB : Rule Unit Unit Unit := ⟨5, fun _ => Except.ok (some (), ())⟩

/-- Weight-9 rule discovered third (name `RuleC`). -/
def w1rC : Rule Unit Unit Unit := ⟨9, fun _ => Except.ok (none, ())⟩

/-- A regex-module namespace with three qualifying definitions (two of
equal weight), the base class, and a non-type symbol. -/
def w1ns : List (PyStr × NsSym Unit Unit Unit) :=
  [("RuleB", NsSym.ruleClass ⟨Except.ok w1rB⟩),
   ("RuleA", NsSym.ruleClass ⟨Except.ok w1rA⟩),
   ("RegexTemplate", NsSym.base),
   ("helper", NsSym.nonType),
   ("RuleC", NsSym.ruleClass ⟨Except.ok w1rC⟩)]

/-- The discovery result for `w1ns`, in `dir()` order. -/
def w1d : List (Rule Unit Unit Unit) := [w1rA, w1rB, w1rC]

/-- A serializer over `Unit` expressions. -/
def w1f : Unit → Except Exn PyStr := fun _ => Except.ok "Q"

/-- Equal-weight rule defined under the later name `B`. -/
def w9rB : Rule Unit Unit Unit := ⟨5, fun _ => Except.ok (some (), ())⟩

/-- Equal-weight rule defined under the earlier name `A`. -/
def w9rA : Rule Unit Unit Unit := ⟨5, fun _ => Except.ok (none, ())⟩

/-- Namespace listing name `B` before name `A`; `dir()` sorts them. -/
def w9ns : List (PyStr × NsSym Unit Unit Unit) :=
  [("B", NsSym.ruleClass ⟨Except.ok w9rB⟩), ("A", NsSym.ruleClass ⟨Except.ok w9rA⟩)]

/-- The named discovery result for `w9ns`. -/
def w9drs : List (PyStr × Rule Unit Unit Unit) := [("A", w9rA), ("B", w9rB)]

/-- Settings namespace of the propagation scenario. -/
def w7m : List (PyStr × Value) := [("FOO", Value.str "bar"), ("_private", Value.other 1)]

/-- Whether attribute `k` of the namespace holds a qualifying rule
definition. -/
def isRuleAttr {W E U : Type} (ns : List (PyStr × NsSym W E U)) (k : PyStr) : Bool :=
  match getattrNs ns k with
  | some s => qualifies s
  | none => false

theorem length_insertDesc {α : Type} (key : α → Int) (a : α) :
    ∀ l : List α, (insertDesc key a l).length = l.length + 1
  | [] => rfl
  | b :: bs => by
    simp only [insertDesc]
    by_cases h : key a < key b
    · simp [h, length_insertDesc key a bs]
    · simp [h]

theorem length_pySortDesc {α : Type} (key : α → Int) :
    ∀ l : List α, (pySortDesc key l).length = l.length
  | [] => rfl
  | a :: as => by
    simp only [pySortDesc]
    rw [length_insertDesc, length_pySortDesc key as, List.length_cons]

theorem mem_insertDesc {α : Type} (key : α → Int) (a c : α) :
    ∀ l : List α, c ∈ insertDesc key a l ↔ c = a ∨ c ∈ l := by
  intro l
  induction l with
  | nil => simp [insertDesc]
  | cons b bs ih =>
    simp only [insertDesc]
    by_cases h : key a < key b
    · simp [h, ih]
      tauto
    · simp [h]

theorem mem_pySortDesc {α : Type} (key : α → Int) (c : α) :
    ∀ l : List α, c ∈ pySortDesc key l ↔ c ∈ l := by
  intro l
  induction l with
  | nil => simp [pySortDesc]
  | cons a as ih =>
    simp only [pySortDesc]
    rw [mem_insertDesc]
    simp [ih]

theorem pairwise_insertDesc {α : Type} (key : α → Int) (S : α → α → Prop) (a : α) :
    ∀ l : List α,
      l.Pairwise (fun x y => key y ≤ key x ∧ (key x = key y → S x y)) →
      (∀ b ∈ l, key a = key b → S a b) →
      (insertDesc key a l).Pairwise
        (fun x y => key y ≤ key x ∧ (key x = key y → S x y)) := by
  intro l
  induction l with
  | nil => intro _ _; simp [insertDesc]
  | cons b bs ih =>
    intro hl ha
    rw [List.pairwise_cons] at hl
    obtain ⟨hb, hbs⟩ := hl
    simp only [insertDesc]
    by_cases h : key a < key b
    · simp only [if_pos h]
      rw [List.pairwise_cons]
      constructor
      · intro c hc
        rw [mem_insertDesc] at hc
        rcases hc with rfl | hc
        · exact ⟨le_of_lt h, fun he => absurd he (ne_of_gt h)⟩
        · exact hb c hc
      · exact ih hbs (fun c hc he => ha c (List.mem_cons_of_mem b hc) he)
    · simp only [if_neg h]
      rw [List.pairwise_cons]
      constructor
      · intro c hc
        rcases List.mem_cons.mp hc with rfl | hc
        · exact ⟨le_of_not_lt h, ha c (List.mem_cons_self _ _)⟩
        · have h1 := hb c hc
          exact ⟨le_trans h1.1 (le_of_not_lt h), ha c (List.mem_cons_of_mem b hc)⟩
      · rw [List.pairwise_cons]
        exact ⟨hb, hbs⟩

theorem pairwise_pySortDesc {α : Type} (key : α → Int) (S : α → α → Prop) :
    ∀ l : List α,
      l.Pairwise (fun x y => key x = key y → S x y) →
      (pySortDesc key l).Pairwise
        (fun x y => key y ≤ key x ∧ (key x = key y → S x y)) := by
  intro l
  induction l with
  | nil => intro _; simp [pySortDesc]
  | cons a as ih =>
    intro hl
    rw [List.pairwise_cons] at hl
    simp only [pySortDesc]
    refine pairwise_insertDesc key S a _ (ih hl.2) ?_
    intro b hb he
    exact hl.1 b ((mem_pySortDesc key b as).mp hb) he

theorem map_snd_insertDesc {τ α : Type} (key : α → Int) (p : τ × α) :
    ∀ l : List (τ × α),
      (insertDesc (fun q => key q.2) p l).map Prod.snd =
        insertDesc key p.2 (l.map Prod.snd)
  | [] => rfl
  | b :: bs => by
    simp only [insertDesc, List.map_cons]
    by_cases h : key p.2 < key b.2
    · simp [h, map_snd_insertDesc key p bs]
    · simp [h]

theorem map_snd_pySortDesc {τ α : Type} (key : α → Int) :
    ∀ l : List (τ × α),
      (pySortDesc (fun q => key q.2) l).map Prod.snd =
        pySortDesc key (l.map Prod.snd)
  | [] => rfl
  | a :: as => by
    simp only [pySortDesc, List.map_cons]
    rw [map_snd_insertDesc, map_snd_pySortDesc key as]

theorem map_snd_withIdx {α : Type} : ∀ (i : Nat) (l : List α),
    (withIdx i l).map Prod.snd = l
  | _, [] => rfl
  | i, a :: as => by simp [withIdx, map_snd_withIdx (i + 1) as]

theorem withIdx_fst_ge {α : Type} : ∀ (i : Nat) (l : List α) (p : Nat × α),
    p ∈ withIdx i l → i ≤ p.1 := by
  intro i l
  induction l generalizing i with
  | nil => intro p hp; simp [withIdx] at hp
  | cons a as ih =>
    intro p hp
    rcases List.mem_cons.mp hp with rfl | hp
    · exact le_refl i
    · exact le_trans (Nat.le_succ i) (ih (i + 1) p hp)

theorem pairwise_withIdx {α : Type} : ∀ (i : Nat) (l : List α),
    (withIdx i l).Pairwise (fun p q => p.1 < q.1) := by
  intro i l
  induction l generalizing i with
  | nil => simp [withIdx]
  | cons a as ih =>
    simp only [withIdx]
    rw [List.pairwise_cons]
    refine ⟨fun q hq => ?_, ih (i + 1)⟩
    exact lt_of_lt_of_le (Nat.lt_succ_self i) (withIdx_fst_ge (i + 1) as q hq)

theorem codeLe_total : ∀ x y : List Nat, codeLe x y = true ∨ codeLe y x = true := by
  intro x
  induction x with
  | nil => intro y; left; rfl
  | cons a as ih =>
    intro y
    cases y with
    | nil => right; rfl
    | cons b bs =>
      rcases Nat.lt_trichotomy a b with h | h | h
      · left; simp [codeLe, h]
      · subst h
        rcases ih bs with h2 | h2
        · left; simp [codeLe, h2]
        · right; simp [codeLe, h2]
      · right; simp [codeLe, h]

theorem codeLe_trans : ∀ x y z : List Nat,
    codeLe x y = true → codeLe y z = true → codeLe x z = true := by
  intro x
  induction x with
  | nil => intro y z _ _; rfl
  | cons a as ih =>
    intro y z h1 h2
    cases y with
    | nil => simp [codeLe] at h1
    | cons b bs =>
      cases z with
      | nil => simp [codeLe] at h2
      | cons c cs =>
        simp only [codeLe] at h1 h2 ⊢
        by_cases hab : a < b
        · by_cases hbc : b < c
          · simp [show a < c by omega]
          · by_cases hcb : c < b
            · simp [hbc, hcb] at h2
            · simp [show a < c by omega]
        · by_cases hba : b < a
          · simp [hab, hba] at h1
          · have hab2 : a = b := by omega
            subst hab2
            by_cases hbc : a < c
            · simp [hbc]
            · by_cases hcb : c < a
              · simp [hbc, hcb] at h2
              · simp [hab, hba] at h1
                simp [hbc, hcb] at h2 ⊢
                exact ih bs cs h1 h2

theorem nameLe_total : ∀ x y : PyStr, nameLe x y = true ∨ nameLe y x = true := by
  intro x y
  exact codeLe_total (strCodes x) (strCodes y)

theorem nameLe_trans : ∀ x y z : PyStr,
    nameLe x y = true → nameLe y z = true → nameLe x z = true := by
  intro x y z h1 h2
  exact codeLe_trans (strCodes x) (strCodes y) (strCodes z) h1 h2

theorem perm_insertAscBy {α : Type} (le : α → α → Bool) (a : α) :
    ∀ l : List α, (insertAscBy le a l).Perm (a :: l) := by
  intro l
  induction l with
  | nil => simp [insertAscBy]
  | cons b bs ih =>
    simp only [insertAscBy]
    by_cases h : le b a = true
    · simp only [if_pos h]
      exact ((ih.cons b).trans (List.Perm.swap a b bs))
    · simp [h]

theorem perm_sortAscBy {α : Type} (le : α → α → Bool) :
    ∀ l : List α, (sortAscBy le l).Perm l := by
  intro l
  induction l with
  | nil => simp [sortAscBy]
  | cons a as ih =>
    simp only [sortAscBy]
    exact (perm_insertAscBy le a (sortAscBy le as)).trans (ih.cons a)

theorem mem_insertAscBy {α : Type} (le : α → α → Bool) (a c : α) (l : List α) :
    c ∈ insertAscBy le a l ↔ c = a ∨ c ∈ l := by
  rw [(perm_insertAscBy le a l).mem_iff]
  simp

theorem pairwise_insertAscBy {α : Type} (le : α → α → Bool)
    (htot : ∀ x y, le x y = true ∨ le y x = true)
    (htr : ∀ x y z, le x y = true → le y z = true → le x z = true) (a : α) :
    ∀ l : List α, l.Pairwise (fun x y => le x y = true) →
      (insertAscBy le a l).Pairwise (fun x y => le x y = true) := by
  intro l
  induction l with
  | nil => intro _; simp [insertAscBy]
  | cons b bs ih =>
    intro hl
    rw [List.pairwise_cons] at hl
    obtain ⟨hb, hbs⟩ := hl
    simp only [insertAscBy]
    by_cases h : le b a = true
    · simp only [if_pos h]
      rw [List.pairwise_cons]
      refine ⟨fun c hc => ?_, ih hbs⟩
      rcases (mem_insertAscBy le a c bs).mp hc with rfl | hc
      · exact h
      · exact hb c hc
    · simp only [if_neg h]
      have hab : le a b = true := by
        rcases htot a b with h2 | h2
        · exact h2
        · exact absurd h2 h
      rw [List.pairwise_cons]
      refine ⟨fun c hc => ?_, List.pairwise_cons.mpr ⟨hb, hbs⟩⟩
      rcases List.mem_cons.mp hc with rfl | hc
      · exact hab
      · exact htr a b c hab (hb c hc)

theorem pairwise_sortAscBy {α : Type} (le : α → α → Bool)
    (htot : ∀ x y, le x y = true ∨ le y x = true)
    (htr : ∀ x y z, le x y = true → le y z = true → le x z = true) :
    ∀ l : List α, (sortAscBy le l).Pairwise (fun x y => le x y = true) := by
  intro l
  induction l with
  | nil => simp [sortAscBy]
  | cons a as ih =>
    simp only [sortAscBy]
    exact pairwise_insertAscBy le htot htr a (sortAscBy le as) ih

theorem pairwise_conj {α : Type} {R S : α → α → Prop} :
    ∀ {l : List α}, l.Pairwise R → l.Pairwise S →
      l.Pairwise (fun a b => R a b ∧ S a b) := by
  intro l
  induction l with
  | nil => intro _ _; simp
  | cons a as ih =>
    intro h1 h2
    rw [List.pairwise_cons] at h1 h2 ⊢
    exact ⟨fun b hb => ⟨h1.1 b hb, h2.1 b hb⟩, ih h1.2 h2.2⟩

/-- `dir()` output for a namespace without duplicate attribute names is
strictly ascending in Python's string order. -/
theorem dirNames_sorted {α : Type} (m : List (PyStr × α))
    (hn : (m.map Prod.fst).Nodup) :
    (dirNames m).Pairwise (fun a b => nameLe a b = true ∧ a ≠ b) := by
  have hp := pairwise_sortAscBy nameLe nameLe_total nameLe_trans (m.map Prod.fst)
  have hnd : (dirNames m).Nodup :=
    ((perm_sortAscBy nameLe (m.map Prod.fst)).nodup_iff).mpr hn
  exact pairwise_conj hp hnd

theorem getattrNs_mem {α : Type} :
    ∀ (m : List (PyStr × α)) (k : PyStr) (v : α),
      getattrNs m k = some v → (k, v) ∈ m := by
  intro m
  induction m with
  | nil => intro k v h; simp [getattrNs] at h
  | cons p rest ih =>
    intro k v h
    cases p with
    | mk n w =>
      simp only [getattrNs] at h
      by_cases hnk : n = k
      · subst hnk
        simp at h
        subst h
        exact List.mem_cons_self _ _
      · rw [if_neg hnk] at h
        exact List.mem_cons_of_mem _ (ih k v h)

theorem getattrNs_of_mem_nodup {α : Type} :
    ∀ (m : List (PyStr × α)) (k : PyStr) (v : α),
      (m.map Prod.fst).Nodup → (k, v) ∈ m → getattrNs m k = some v := by
  intro m
  induction m with
  | nil => intro k v _ h; simp at h
  | cons p rest ih =>
    intro k v hn hm
    cases p with
    | mk n w =>
      simp only [List.map_cons, List.nodup_cons] at hn
      rcases List.mem_cons.mp hm with h | h
      · cases h
        simp [getattrNs]
      · have hk : k ∈ rest.map Prod.fst := by
          exact List.mem_map.mpr ⟨(k, v), h, rfl⟩
        have hnk : n ≠ k := fun he => hn.1 (he ▸ hk)
        simp only [getattrNs, if_neg hnk]
        exact ih k v hn.2 h

theorem discoverLoop_cons_none {W E U : Type} (ns : List (PyStr × NsSym W E U))
    (k : PyStr) (ks : List PyStr) (hg : getattrNs ns k = none) :
    discoverLoop ns (k :: ks) = discoverLoop ns ks := by
  simp [discoverLoop, hg]

theorem discoverLoop_cons_base {W E U : Type} (ns : List (PyStr × NsSym W E U))
    (k : PyStr) (ks : List PyStr) (hg : getattrNs ns k = some NsSym.base) :
    discoverLoop ns (k :: ks) = discoverLoop ns ks := by
  simp [discoverLoop, hg]

theorem discoverLoop_cons_otherType {W E U : Type} (ns : List (PyStr × NsSym W E U))
    (k : PyStr) (ks : List PyStr) (hg : getattrNs ns k = some NsSym.otherType) :
    discoverLoop ns (k :: ks) = discoverLoop ns ks := by
  simp [discoverLoop, hg]

theorem discoverLoop_cons_nonType {W E U : Type} (ns : List (PyStr × NsSym W E U))
    (k : PyStr) (ks : List PyStr) (hg : getattrNs ns k = some NsSym.nonType) :
    discoverLoop ns (k :: ks) = discoverLoop ns ks := by
  simp [discoverLoop, hg]

theorem discoverLoop_cons_typeError {W E U : Type} (ns : List (PyStr × NsSym W E U))
    (k : PyStr) (ks : List PyStr) (c : RuleClassDef W E U)
    (hg : getattrNs ns k = some (NsSym.ruleClass c))
    (hc : c.init = Except.error Exn.typeError) :
    discoverLoop ns (k :: ks) = discoverLoop ns ks := by
  simp [discoverLoop, hg, hc]

theorem discoverLoop_cons_fatal {W E U : Type} (ns : List (PyStr × NsSym W E U))
    (k : PyStr) (ks : List PyStr) (c : RuleClassDef W E U) (e : Exn)
    (hg : getattrNs ns k = some (NsSym.ruleClass c))
    (hc : c.init = Except.error e) (hne : e ≠ Exn.typeError) :
    discoverLoop ns (k :: ks) = Except.error e := by
  cases e with
  | taggingError => simp [discoverLoop, hg, hc]
  | typeError => exact absurd rfl hne
  | other n => simp [discoverLoop, hg, hc]

theorem discoverLoop_cons_ok {W E U : Type} (ns : List (PyStr × NsSym W E U))
    (k : PyStr) (ks : List PyStr) (c : RuleClassDef W E U) (r : Rule W E U)
    (hg : getattrNs ns k = some (NsSym.ruleClass c))
    (hc : c.init = Except.ok r) :
    discoverLoop ns (k :: ks) =
      match discoverLoop ns ks with
      | Except.ok rest => Except.ok (r :: rest)
      | Except.error e => Except.error e := by
  simp [discoverLoop, hg, hc]

theorem discoverLoopNamed_cons_none {W E U : Type} (ns : List (PyStr × NsSym W E U))
    (k : PyStr) (ks : List PyStr) (hg : getattrNs ns k = none) :
    discoverLoopNamed ns (k :: ks) = discoverLoopNamed ns ks := by
  simp [discoverLoopNamed, hg]

theorem discoverLoopNamed_cons_base {W E U : Type} (ns : List (PyStr × NsSym W E U))
    (k : PyStr) (ks : List PyStr) (hg : getattrNs ns k = some NsSym.base) :
    discoverLoopNamed ns (k :: ks) = discoverLoopNamed ns ks := by
  simp [discoverLoopNamed, hg]

theorem discoverLoopNamed_cons_otherType {W E U : Type} (ns : List (PyStr × NsSym W E U))
    (k : PyStr) (ks : List PyStr) (hg : getattrNs ns k = some NsSym.otherType) :
    discoverLoopNamed ns (k :: ks) = discoverLoopNamed ns ks := by
  simp [discoverLoopNamed, hg]

theorem discoverLoopNamed_cons_nonType {W E U : Type} (ns : List (PyStr × NsSym W E U))
    (k : PyStr) (ks : List PyStr) (hg : getattrNs ns k = some NsSym.nonType) :
    discoverLoopNamed ns (k :: ks) = discoverLoopNamed ns ks := by
  simp [discoverLoopNamed, hg]

theorem discoverLoopNamed_cons_typeError {W E U : Type} (ns : List (PyStr × NsSym W E U))
    (k : PyStr) (ks : List PyStr) (c : RuleClassDef W E U)
    (hg : getattrNs ns k = some (NsSym.ruleClass c))
    (hc : c.init = Except.error Exn.typeError) :
    discoverLoopNamed ns (k :: ks) = discoverLoopNamed ns ks := by
  simp [discoverLoopNamed, hg, hc]

theorem discoverLoopNamed_cons_fatal {W E U : Type} (ns : List (PyStr × NsSym W E U))
    (k : PyStr) (ks : List PyStr) (c : RuleClassDef W E U) (e : Exn)
    (hg : getattrNs ns k = some (NsSym.ruleClass c))
    (hc : c.init = Except.error e) (hne : e ≠ Exn.typeError) :
    discoverLoopNamed ns (k :: ks) = Except.error e := by
  cases e with
  | taggingError => simp [discoverLoopNamed, hg, hc]
  | typeError => exact absurd rfl hne
  | other n => simp [discoverLoopNamed, hg, hc]

theorem discoverLoopNamed_cons_ok {W E U : Type} (ns : List (PyStr × NsSym W E U))
    (k : PyStr) (ks : List PyStr) (c : RuleClassDef W E U) (r : Rule W E U)
    (hg : getattrNs ns k = some (NsSym.ruleClass c))
    (hc : c.init = Except.ok r) :
    discoverLoopNamed ns (k :: ks) =
      match discoverLoopNamed ns ks with
      | Except.ok rest => Except.ok ((k, r) :: rest)
      | Except.error e => Except.error e := by
  simp [discoverLoopNamed, hg, hc]

theorem discoverLoop_eq_named {W E U : Type} (ns : List (PyStr × NsSym W E U)) :
    ∀ ks : List PyStr,
      discoverLoop ns ks = Except.map (List.map Prod.snd) (discoverLoopNamed ns ks) := by
  intro ks
  induction ks with
  | nil => rfl
  | cons k ks ih =>
    cases hg : getattrNs ns k with
    | none =>
      rw [discoverLoop_cons_none ns k ks hg, discoverLoopNamed_cons_none ns k ks hg, ih]
    | some s =>
      cases s with
      | base =>
        rw [discoverLoop_cons_base ns k ks hg, discoverLoopNamed_cons_base ns k ks hg, ih]
      | otherType =>
        rw [discoverLoop_cons_otherType ns k ks hg,
          discoverLoopNamed_cons_otherType ns k ks hg, ih]
      | nonType =>
        rw [discoverLoop_cons_nonType ns k ks hg,
          discoverLoopNamed_cons_nonType ns k ks hg, ih]
      | ruleClass c =>
        cases hc : c.init with
        | ok r =>
          rw [discoverLoop_cons_ok ns k ks c r hg hc,
            discoverLoopNamed_cons_ok ns k ks c r hg hc, ih]
          cases discoverLoopNamed ns ks with
          | ok rest => rfl
          | error e => rfl
        | error e =>
          cases e with
          | typeError =>
            rw [discoverLoop_cons_typeError ns k ks c hg hc,
              discoverLoopNamed_cons_typeError ns k ks c hg hc, ih]
          | taggingError =>
            rw [discoverLoop_cons_fatal ns k ks c _ hg hc (by simp),
              discoverLoopNamed_cons_fatal ns k ks c _ hg hc (by simp)]
            rfl
          | other n =>
            rw [discoverLoop_cons_fatal ns k ks c _ hg hc (by simp),
              discoverLoopNamed_cons_fatal ns k ks c _ hg hc (by simp)]
            rfl

theorem discoverLoopNamed_fst_sublist {W E U : Type} (ns : List (PyStr × NsSym W E U)) :
    ∀ (ks : List PyStr) (drs : List (PyStr × Rule W E U)),
      discoverLoopNamed ns ks = Except.ok drs → (drs.map Prod.fst).Sublist ks := by
  intro ks
  induction ks with
  | nil =>
    intro drs h
    cases h
    simp
  | cons k ks ih =>
    intro drs h
    cases hg : getattrNs ns k with
    | none =>
      rw [discoverLoopNamed_cons_none ns k ks hg] at h
      exact (ih drs h).cons k
    | some s =>
      cases s with
      | base =>
        rw [discoverLoopNamed_cons_base ns k ks hg] at h
        exact (ih drs h).cons k
      | otherType =>
        rw [discoverLoopNamed_cons_otherType ns k ks hg] at h
        exact (ih drs h).cons k
      | nonType =>
        rw [discoverLoopNamed_cons_nonType ns k ks hg] at h
        exact (ih drs h).cons k
      | ruleClass c =>
        cases hc : c.init with
        | ok r =>
          rw [discoverLoopNamed_cons_ok ns k ks c r hg hc] at h
          cases hrec : discoverLoopNamed ns ks with
          | ok rest =>
            rw [hrec] at h
            cases h
            simpa using (ih rest hrec).cons₂ k
          | error e => rw [hrec] at h; cases h
        | error e =>
          cases e with
          | typeError =>
            rw [discoverLoopNamed_cons_typeError ns k ks c hg hc] at h
            exact (ih drs h).cons k
          | taggingError =>
            rw [discoverLoopNamed_cons_fatal ns k ks c _ hg hc (by simp)] at h
            cases h
          | other n =>
            rw [discoverLoopNamed_cons_fatal ns k ks c _ hg hc (by simp)] at h
            cases h

theorem discoverLoop_allOk {W E U : Type} (ns : List (PyStr × NsSym W E U))
    (hall : ∀ (k : PyStr) (c : RuleClassDef W E U),
      getattrNs ns k = some (NsSym.ruleClass c) → ∃ r, c.init = Except.ok r) :
    ∀ ks : List PyStr, ∃ l, discoverLoop ns ks = Except.ok l ∧
      l.length = (ks.filter (isRuleAttr ns)).length := by
  intro ks
  induction ks with
  | nil => exact ⟨[], rfl, rfl⟩
  | cons k ks ih =>
    obtain ⟨l, hl, hlen⟩ := ih
    cases hg : getattrNs ns k with
    | none =>
      refine ⟨l, ?_, ?_⟩
      · rw [discoverLoop_cons_none ns k ks hg, hl]
      · rw [hlen]
        simp [List.filter, isRuleAttr, hg]
    | some s =>
      cases s with
      | base =>
        refine ⟨l, ?_, ?_⟩
        · rw [discoverLoop_cons_base ns k ks hg, hl]
        · rw [hlen]
          simp [List.filter, isRuleAttr, hg, qualifies]
      | otherType =>
        refine ⟨l, ?_, ?_⟩
        · rw [discoverLoop_cons_otherType ns k ks hg, hl]
        · rw [hlen]
          simp [List.filter, isRuleAttr, hg, qualifies]
      | nonType =>
        refine ⟨l, ?_, ?_⟩
        · rw [discoverLoop_cons_nonType ns k ks hg, hl]
        · rw [hlen]
          simp [List.filter, isRuleAttr, hg, qualifies]
      | ruleClass c =>
        obtain ⟨r, hr⟩ := hall k c hg
        refine ⟨r :: l, ?_, ?_⟩
        · rw [discoverLoop_cons_ok ns k ks c r hg hr, hl]
        · simp [List.filter, isRuleAttr, hg, qualifies, hlen]

theorem filter_names_count {W E U : Type} :
    ∀ ns : List (PyStr × NsSym W E U), (ns.map Prod.fst).Nodup →
      ((ns.map Prod.fst).filter (isRuleAttr ns)).length = countQualifying ns := by
  intro ns
  induction ns with
  | nil => intro _; rfl
  | cons p rest ih =>
    intro hn
    cases p with
    | mk k s =>
      simp only [List.map_cons, List.nodup_cons] at hn
      have hhead : isRuleAttr ((k, s) :: rest) k = qualifies s := by
        simp [isRuleAttr, getattrNs]
      have htail : ∀ k' ∈ rest.map Prod.fst,
          isRuleAttr ((k, s) :: rest) k' = isRuleAttr rest k' := by
        intro k' hk'
        have hne : k ≠ k' := fun he => hn.1 (he ▸ hk')
        simp [isRuleAttr, getattrNs, if_neg hne]
      have hfr : (rest.map Prod.fst).filter (isRuleAttr ((k, s) :: rest)) =
          (rest.map Prod.fst).filter (isRuleAttr rest) :=
        List.filter_congr htail
      have hrest := ih hn.2
      simp only [countQualifying] at hrest ⊢
      cases hq : qualifies s with
      | true =>
        simp [List.filter, hhead, hq, hfr, hrest]
      | false =>
        simp [List.filter, hhead, hq, hfr, hrest]

theorem pipeLoop_cons_error {W E U : Type} (f : E → Except Exn PyStr)
    (r : Rule W E U) (rs : List (Rule W E U)) (ws : List W) (e : Exn)
    (hg : r.get_semantics ws = Except.error e) :
    pipeLoop f (r :: rs) ws = ⟨[r], [], some e⟩ := by
  simp [pipeLoop, hg]

theorem pipeLoop_cons_nomatch {W E U : Type} (f : E → Except Exn PyStr)
    (r : Rule W E U) (rs : List (Rule W E U)) (ws : List W) (u : U)
    (hg : r.get_semantics ws = Except.ok (none, u)) :
    pipeLoop f (r :: rs) ws =
      ⟨r :: (pipeLoop f rs ws).invoked, (pipeLoop f rs ws).triples,
        (pipeLoop f rs ws).exn⟩ := by
  simp [pipeLoop, hg]

theorem pipeLoop_cons_serError {W E U : Type} (f : E → Except Exn PyStr)
    (r : Rule W E U) (rs : List (Rule W E U)) (ws : List W) (e : E) (u : U) (ex : Exn)
    (hg : r.get_semantics ws = Except.ok (some e, u))
    (hf : f e = Except.error ex) :
    pipeLoop f (r :: rs) ws = ⟨[r], [], some ex⟩ := by
  simp [pipeLoop, hg, hf]

theorem pipeLoop_cons_match {W E U : Type} (f : E → Except Exn PyStr)
    (r : Rule W E U) (rs : List (Rule W E U)) (ws : List W) (e : E) (u : U) (q : PyStr)
    (hg : r.get_semantics ws = Except.ok (some e, u))
    (hf : f e = Except.ok q) :
    pipeLoop f (r :: rs) ws =
      ⟨r :: (pipeLoop f rs ws).invoked,
        (none, some q, some u) :: (pipeLoop f rs ws).triples,
        (pipeLoop f rs ws).exn⟩ := by
  simp [pipeLoop, hg, hf]

theorem firstMatch_cons_error {W E U : Type} (f : E → Except Exn PyStr)
    (r : Rule W E U) (rs : List (Rule W E U)) (ws : List W) (e : Exn)
    (hg : r.get_semantics ws = Except.error e) :
    firstMatch f (r :: rs) ws = ⟨[r], none, some e⟩ := by
  simp [firstMatch, hg]

theorem firstMatch_cons_nomatch {W E U : Type} (f : E → Except Exn PyStr)
    (r : Rule W E U) (rs : List (Rule W E U)) (ws : List W) (u : U)
    (hg : r.get_semantics ws = Except.ok (none, u)) :
    firstMatch f (r :: rs) ws =
      ⟨r :: (firstMatch f rs ws).invoked, (firstMatch f rs ws).result,
        (firstMatch f rs ws).exn⟩ := by
  simp [firstMatch, hg]

theorem firstMatch_cons_serError {W E U : Type} (f : E → Except Exn PyStr)
    (r : Rule W E U) (rs : List (Rule W E U)) (ws : List W) (e : E) (u : U) (ex : Exn)
    (hg : r.get_semantics ws = Except.ok (some e, u))
    (hf : f e = Except.error ex) :
    firstMatch f (r :: rs) ws = ⟨[r], none, some ex⟩ := by
  simp [firstMatch, hg, hf]

theorem firstMatch_cons_match {W E U : Type} (f : E → Except Exn PyStr)
    (r : Rule W E U) (rs : List (Rule W E U)) (ws : List W) (e : E) (u : U) (q : PyStr)
    (hg : r.get_semantics ws = Except.ok (some e, u))
    (hf : f e = Except.ok q) :
    firstMatch f (r :: rs) ws = ⟨[r], some (none, some q, some u), none⟩ := by
  simp [firstMatch, hg, hf]

/-- Pulling one element of the generator yields the head of the fully
consumed sequence (when an exception interrupts the full run later, the
already-yielded head is unaffected). -/
theorem firstMatch_result_eq {W E U : Type} (f : E → Except Exn PyStr) :
    ∀ (rs : List (Rule W E U)) (ws : List W),
      (firstMatch f rs ws).result = (pipeLoop f rs ws).triples.head? := by
  intro rs
  induction rs with
  | nil => intro ws; rfl
  | cons r rs ih =>
    intro ws
    cases hg : r.get_semantics ws with
    | error e =>
      rw [firstMatch_cons_error f r rs ws e hg, pipeLoop_cons_error f r rs ws e hg]
      rfl
    | ok p =>
      obtain ⟨oe, u⟩ := p
      cases oe with
      | none =>
        rw [firstMatch_cons_nomatch f r rs ws u hg, pipeLoop_cons_nomatch f r rs ws u hg]
        exact ih ws
      | some e =>
        cases hf : f e with
        | error ex =>
          rw [firstMatch_cons_serError f r rs ws e u ex hg hf,
            pipeLoop_cons_serError f r rs ws e u ex hg hf]
          rfl
        | ok q =>
          rw [firstMatch_cons_match f r rs ws e u q hg hf,
            pipeLoop_cons_match f r rs ws e u q hg hf]
          rfl

/-- The single-pull consumption invokes exactly the rules up to and
including the first one that yields a non-empty expression. -/
theorem firstMatch_invoked_eq {W E U : Type} (f : E → Except Exn PyStr) (ws : List W) :
    ∀ (pre : List (Rule W E U)) (r : Rule W E U) (post : List (Rule W E U)),
      (∀ r' ∈ pre, ∃ u, r'.get_semantics ws = Except.ok (none, u)) →
      (∃ e u, r.get_semantics ws = Except.ok (some e, u)) →
      (firstMatch f (pre ++ r :: post) ws).invoked = pre ++ [r] := by
  intro pre
  induction pre with
  | nil =>
    intro r post _ hm
    obtain ⟨e, u, hg⟩ := hm
    cases hf : f e with
    | error ex => rw [List.nil_append, firstMatch_cons_serError f r post ws e u ex hg hf]; rfl
    | ok q => rw [List.nil_append, firstMatch_cons_match f r post ws e u q hg hf]; rfl
  | cons r' pre ih =>
    intro r post hpre hm
    obtain ⟨u, hg⟩ := hpre r' (List.mem_cons_self _ _)
    rw [List.cons_append, firstMatch_cons_nomatch f r' _ ws u hg]
    rw [ih r post (fun x hx => hpre x (List.mem_cons_of_mem r' hx)) hm]
    rfl

/-- When no exception interrupts the fully consumed loop, the emitted
triples are exactly the serialized successful matches, in rule order. -/
theorem pipeLoop_triples_of_ok {W E U : Type} (f : E → Except Exn PyStr) (ws : List W) :
    ∀ rs : List (Rule W E U),
      (pipeLoop f rs ws).exn = none →
      (pipeLoop f rs ws).triples = rs.filterMap (fun r =>
        match r.get_semantics ws with
        | Except.ok (some e, u) =>
          match f e with
          | Except.ok q => some ((none, some q, some u) : Triple U)
          | Except.error _ => none
        | _ => none) := by
  intro rs
  induction rs with
  | nil => intro _; rfl
  | cons r rs ih =>
    intro hexn
    cases hg : r.get_semantics ws with
    | error e =>
      rw [pipeLoop_cons_error f r rs ws e hg] at hexn
      cases hexn
    | ok p =>
      obtain ⟨oe, u⟩ := p
      cases oe with
      | none =>
        rw [pipeLoop_cons_nomatch f r rs ws u hg] at hexn ⊢
        simp only [List.filterMap_cons, hg]
        exact ih hexn
      | some e =>
        cases hf : f e with
        | error ex =>
          rw [pipeLoop_cons_serError f r rs ws e u ex hg hf] at hexn
          cases hexn
        | ok q =>
          rw [pipeLoop_cons_match f r rs ws e u q hg hf] at hexn ⊢
          simp only [List.filterMap_cons, hg, hf]
          rw [ih hexn]

/-- A rule exception escapes the fully consumed loop when every earlier
rule returned normally and every earlier match serialized normally. -/
theorem pipeLoop_exn_rule_error {W E U : Type} (f : E → Except Exn PyStr) (ws : List W) :
    ∀ (pre : List (Rule W E U)) (r : Rule W E U) (post : List (Rule W E U)) (e : Exn),
      (∀ r' ∈ pre, ∃ oe u, r'.get_semantics ws = Except.ok (oe, u) ∧
        ∀ e', oe = some e' → ∃ q, f e' = Except.ok q) →
      r.get_semantics ws = Except.error e →
      (pipeLoop f (pre ++ r :: post) ws).exn = some e := by
  intro pre
  induction pre with
  | nil =>
    intro r post e _ hr
    rw [List.nil_append, pipeLoop_cons_error f r post ws e hr]
  | cons r' pre ih =>
    intro r post e hpre hr
    obtain ⟨oe, u, hok, hser⟩ := hpre r' (List.mem_cons_self _ _)
    have htail := fun x hx => hpre x (List.mem_cons_of_mem r' hx)
    cases oe with
    | none =>
      rw [List.cons_append, pipeLoop_cons_nomatch f r' _ ws u hok]
      exact ih r post e htail hr
    | some e' =>
      obtain ⟨q, hq⟩ := hser e' rfl
      rw [List.cons_append, pipeLoop_cons_match f r' _ ws e' u q hok hq]
      exact ih r post e htail hr

/-- A serializer exception escapes the fully consumed loop. -/
theorem pipeLoop_exn_ser_error {W E U : Type} (f : E → Except Exn PyStr) (ws : List W) :
    ∀ (pre : List (Rule W E U)) (r : Rule W E U) (post : List (Rule W E U))
      (e : E) (u : U) (ex : Exn),
      (∀ r' ∈ pre, ∃ oe u', r'.get_semantics ws = Except.ok (oe, u') ∧
        ∀ e', oe = some e' → ∃ q, f e' = Except.ok q) →
      r.get_semantics ws = Except.ok (some e, u) →
      f e = Except.error ex →
      (pipeLoop f (pre ++ r :: post) ws).exn = some ex := by
  intro pre
  induction pre with
  | nil =>
    intro r post e u ex _ hr hf
    rw [List.nil_append, pipeLoop_cons_serError f r post ws e u ex hr hf]
  | cons r' pre ih =>
    intro r post e u ex hpre hr hf
    obtain ⟨oe, u', hok, hser⟩ := hpre r' (List.mem_cons_self _ _)
    have htail := fun x hx => hpre x (List.mem_cons_of_mem r' hx)
    cases oe with
    | none =>
      rw [List.cons_append, pipeLoop_cons_nomatch f r' _ ws u' hok]
      exact ih r post e u ex htail hr hf
    | some e' =>
      obtain ⟨q, hq⟩ := hser e' rfl
      rw [List.cons_append, pipeLoop_cons_match f r' _ ws e' u' q hok hq]
      exact ih r post e u ex htail hr hf

/-- A rule exception escapes the single-pull consumption when no earlier
rule matched. -/
theorem firstMatch_exn_rule_error {W E U : Type} (f : E → Except Exn PyStr) (ws : List W) :
    ∀ (pre : List (Rule W E U)) (r : Rule W E U) (post : List (Rule W E U)) (e : Exn),
      (∀ r' ∈ pre, ∃ u, r'.get_semantics ws = Except.ok (none, u)) →
      r.get_semantics ws = Except.error e →
      (firstMatch f (pre ++ r :: post) ws).exn = some e := by
  intro pre
  induction pre with
  | nil =>
    intro r post e _ hr
    rw [List.nil_append, firstMatch_cons_error f r post ws e hr]
  | cons r' pre ih =>
    intro r post e hpre hr
    obtain ⟨u, hok⟩ := hpre r' (List.mem_cons_self _ _)
    rw [List.cons_append, firstMatch_cons_nomatch f r' _ ws u hok]
    exact ih r post e (fun x hx => hpre x (List.mem_cons_of_mem r' hx)) hr

/-- A serializer exception on the first match escapes the single-pull
consumption. -/
theorem firstMatch_exn_ser_error {W E U : Type} (f : E → Except Exn PyStr) (ws : List W) :
    ∀ (pre : List (Rule W E U)) (r : Rule W E U) (post : List (Rule W E U))
      (e : E) (u : U) (ex : Exn),
      (∀ r' ∈ pre, ∃ u', r'.get_semantics ws = Except.ok (none, u')) →
      r.get_semantics ws = Except.ok (some e, u) →
      f e = Except.error ex →
      (firstMatch f (pre ++ r :: post) ws).exn = some ex := by
  intro pre
  induction pre with
  | nil =>
    intro r post e u ex _ hr hf
    rw [List.nil_append, firstMatch_cons_serError f r post ws e u ex hr hf]
  | cons r' pre ih =>
    intro r post e u ex hpre hr hf
    obtain ⟨u', hok⟩ := hpre r' (List.mem_cons_self _ _)
    rw [List.cons_append, firstMatch_cons_nomatch f r' _ ws u' hok]
    exact ih r post e u ex (fun x hx => hpre x (List.mem_cons_of_mem r' hx)) hr hf

theorem settingsLoop_not_mem (enc : PyStr → PyStr) (m : List (PyStr × Value)) (k : PyStr) :
    ∀ (ks : List PyStr) (sh : PyStr → Option Value), k ∉ ks →
      settingsLoop enc m ks sh k = sh k := by
  intro ks
  induction ks with
  | nil => intro sh _; rfl
  | cons k' ks ih =>
    intro sh hk
    have hne : k ≠ k' := fun he => hk (he ▸ List.mem_cons_self _ _)
    have hk2 : k ∉ ks := fun hm => hk (List.mem_cons_of_mem k' hm)
    simp only [settingsLoop]
    rw [ih _ hk2]
    by_cases hu : pyUpper k' = k'
    · rw [if_pos hu]
      cases getattrNs m k' with
      | none => rfl
      | some v => simp [setattrFun, if_neg hne]
    · rw [if_neg hu]

theorem settingsLoop_not_upper (enc : PyStr → PyStr) (m : List (PyStr × Value)) (k : PyStr)
    (hk : ¬ pyUpper k = k) :
    ∀ (ks : List PyStr) (sh : PyStr → Option Value),
      settingsLoop enc m ks sh k = sh k := by
  intro ks
  induction ks with
  | nil => intro sh; rfl
  | cons k' ks ih =>
    intro sh
    simp only [settingsLoop]
    rw [ih]
    by_cases hu : pyUpper k' = k'
    · rw [if_pos hu]
      have hne : k ≠ k' := fun he => hk (he ▸ hu)
      cases getattrNs m k' with
      | none => rfl
      | some v => simp [setattrFun, if_neg hne]
    · rw [if_neg hu]

theorem settingsLoop_mem_upper (enc : PyStr → PyStr) (m : List (PyStr × Value))
    (k : PyStr) (v : Value) (hu : pyUpper k = k) (hv : getattrNs m k = some v) :
    ∀ (ks : List PyStr) (sh : PyStr → Option Value), ks.Nodup → k ∈ ks →
      settingsLoop enc m ks sh k = some (normalizeValue enc v) := by
  intro ks
  induction ks with
  | nil => intro sh _ hk; simp at hk
  | cons k' ks ih =>
    intro sh hnd hk
    rw [List.nodup_cons] at hnd
    simp only [settingsLoop]
    rcases List.mem_cons.mp hk with rfl | hk2
    · rw [if_pos hu, hv]
      rw [settingsLoop_not_mem enc m k ks _ hnd.1]
      simp [setattrFun]
    · exact ih _ hnd.2 hk2

theorem pyReplaceChar_self (c : Char) :
    ∀ s : PyStr, pyReplaceChar s c (String.singleton c) = s := by
  intro s
  cases s with
  | mk data =>
    simp only [pyReplaceChar, String.singleton]
    congr 1
    induction data with
    | nil => rfl
    | cons ch rest ih =>
      simp only [List.foldr_cons, ih]
      by_cases h : ch = c
      · subst h; simp
      · simp [h]

theorem get_queries_no_ser {W E U : Type} (app : QuepyApp W E U) (q lang : PyStr)
    (h : resolveSerializer app lang = none) :
    get_queries app q lang = ⟨[LogEvent.errorNoSerializer lang], [], [], none⟩ := by
  simp [get_queries, h]

theorem get_queries_tagging_error {W E U : Type} (app : QuepyApp W E U) (q lang : PyStr)
    (f : E → Except Exn PyStr) (hf : resolveSerializer app lang = some f)
    (ht : app.tagger (app.enc q) = Except.error Exn.taggingError) :
    get_queries app q lang = ⟨[LogEvent.warnCantParse (app.enc q)], [], [], none⟩ := by
  simp [get_queries, hf, ht]

theorem get_queries_tagger_fatal {W E U : Type} (app : QuepyApp W E U) (q lang : PyStr)
    (f : E → Except Exn PyStr) (e : Exn) (hf : resolveSerializer app lang = some f)
    (ht : app.tagger (app.enc q) = Except.error e) (hne : e ≠ Exn.taggingError) :
    get_queries app q lang = ⟨[], [], [], some e⟩ := by
  cases e with
  | taggingError => exact absurd rfl hne
  | typeError => simp [get_queries, hf, ht]
  | other n => simp [get_queries, hf, ht]

theorem get_queries_tagged {W E U : Type} (app : QuepyApp W E U) (q lang : PyStr)
    (f : E → Except Exn PyStr) (words : List W) (hf : resolveSerializer app lang = some f)
    (ht : app.tagger (app.enc q) = Except.ok words) :
    get_queries app q lang =
      ⟨[], (pipeLoop f app.rules words).invoked, (pipeLoop f app.rules words).triples,
        (pipeLoop f app.rules words).exn⟩ := by
  simp [get_queries, hf, ht]

theorem get_query_no_ser {W E U : Type} (app : QuepyApp W E U) (q lang : PyStr)
    (h : resolveSerializer app lang = none) :
    get_query app q lang =
      ⟨[LogEvent.errorNoSerializer lang], [], (none, none, none), none⟩ := by
  simp [get_query, h]

theorem get_query_tagging_error {W E U : Type} (app : QuepyApp W E U) (q lang : PyStr)
    (f : E → Except Exn PyStr) (hf : resolveSerializer app lang = some f)
    (ht : app.tagger (app.enc (question_sanitize q)) = Except.error Exn.taggingError) :
    get_query app q lang =
      ⟨[LogEvent.warnCantParse (app.enc (question_sanitize q))], [],
        (none, none, none), none⟩ := by
  simp [get_query, hf, ht]

theorem get_query_tagger_fatal {W E U : Type} (app : QuepyApp W E U) (q lang : PyStr)
    (f : E → Except Exn PyStr) (e : Exn) (hf : resolveSerializer app lang = some f)
    (ht : app.tagger (app.enc (question_sanitize q)) = Except.error e)
    (hne : e ≠ Exn.taggingError) :
    get_query app q lang = ⟨[], [], (none, none, none), some e⟩ := by
  cases e with
  | taggingError => exact absurd rfl hne
  | typeError => simp [get_query, hf, ht]
  | other n => simp [get_query, hf, ht]

theorem get_query_tagged {W E U : Type} (app : QuepyApp W E U) (q lang : PyStr)
    (f : E → Except Exn PyStr) (words : List W) (hf : resolveSerializer app lang = some f)
    (ht : app.tagger (app.enc (question_sanitize q)) = Except.ok words) :
    get_query app q lang =
      ⟨[], (firstMatch f app.rules words).invoked,
        ((firstMatch f app.rules words).result).getD (none, none, none),
        (firstMatch f app.rules words).exn⟩ := by
  simp [get_query, hf, ht]

/-- Claim C2 (amended): for every loaded application, question and query
language, `get_query question` returns the first element of the sequence
produced by `get_queries` applied to the sanitized question
`question_sanitize question`, or the triple `(None, None, None)` when
that sequence is empty.  (The claim as frozen omits the sanitization
step that `get_query` performs before delegating; see the
counterexample.) -/
theorem get_query_eq_head_of_sanitized {W E U : Type} (app : QuepyApp W E U)
    (q lang : PyStr) :
    (get_query app q lang).result =
      ((get_queries app (question_sanitize q) lang).triples.head?).getD
        (none, none, none) := by
  cases hf : resolveSerializer app lang with
  | none =>
    rw [get_query_no_ser app q lang hf, get_queries_no_ser app _ lang hf]
    rfl
  | some f =>
    cases ht : app.tagger (app.enc (question_sanitize q)) with
    | error e =>
      cases e with
      | taggingError =>
        rw [get_query_tagging_error app q lang f hf ht,
          get_queries_tagging_error app _ lang f hf ht]
        rfl
      | typeError =>
        rw [get_query_tagger_fatal app q lang f _ hf ht (by simp),
          get_queries_tagger_fatal app _ lang f _ hf ht (by simp)]
        rfl
      | other n =>
        rw [get_query_tagger_fatal app q lang f _ hf ht (by simp),
          get_queries_tagger_fatal app _ lang f _ hf ht (by simp)]
        rfl
    | ok words =>
      rw [get_query_tagged app q lang f words hf ht,
        get_queries_tagged app _ lang f words hf ht]
      simp [firstMatch_result_eq]

/-- Claim C2 (counterexample): on the question consisting of one double
quote, the sequence produced by `get_queries` on that very question is
empty, yet `get_query` does not return `(None, None, None)` — because
`get_query` sanitizes the question before delegating while `get_queries`
does not. -/
theorem get_query_getQueries_unsanitized_disagree :
    (get_queries cexApp2 "\"" "sparql").triples = [] ∧
    (get_query cexApp2 "\"" "sparql").result ≠
      ((none, none, none) : Triple Nat) := by
  exact ⟨by decide, by decide⟩

/-- Claim C5: when the serializer resolves and the tagger raises the
tagging/parse failure on the (encoding-normalized) question,
`get_queries` yields zero triples, logs exactly the tagger warning, and
lets no exception escape; the application state is immutable, so
subsequent questions are unaffected. -/
theorem tagging_failure_recoverable {W E U : Type} (app : QuepyApp W E U)
    (q lang : PyStr) (f : E → Except Exn PyStr)
    (hf : resolveSerializer app lang = some f)
    (ht : app.tagger (app.enc q) = Except.error Exn.taggingError) :
    get_queries app q lang =
      ⟨[LogEvent.warnCantParse (app.enc q)], [], [], none⟩ :=
  get_queries_tagging_error app q lang f hf ht

/-- Claim C5 (witness): the concrete always-failing tagger produces the
empty, warned, exception-free run. -/
theorem tagging_failure_recoverable_instance :
    get_queries w5app "hello" "sparql" =
      ⟨[LogEvent.warnCantParse "hello"], [], [], none⟩ :=
  tagging_failure_recoverable w5app "hello" "sparql" cexSer rfl rfl

/-- Claim C6 (amended): the sanitization of `question_sanitize` leaves
single quotes unchanged — the source line `question.replace("'", "\'")`
replaces the quote with itself, since the Python literal `"\'"` is the
plain apostrophe — and maps each double quote to backslash plus double
quote; and it is applied by `get_query` only, not by `get_queries`
(third conjunct: running `get_queries` on a raw question differs from
running it on the sanitized question). -/
theorem question_sanitize_behaviour :
    (∀ q : PyStr, question_sanitize q =
      pyReplaceChar q dquote (String.mk [backslash, dquote])) ∧
    (question_sanitize "don't" = "don't") ∧
    (question_sanitize "He said \"hi\"" = "He said \\\"hi\\\"") ∧
    ((get_queries cexApp2 "\"" "sparql").triples ≠
      (get_queries cexApp2 (question_sanitize "\"") "sparql").triples) := by
  refine ⟨fun q => ?_, by decide, by decide, by decide⟩
  show pyReplaceChar (pyReplaceChar q squote (String.singleton squote)) dquote _ =
    pyReplaceChar q dquote _
  rw [pyReplaceChar_self squote q]

/-- Claim C6 (counterexample): a question containing a single quote is
returned unchanged by the sanitization — the single quote is not mapped
to any form distinct from the raw quote. -/
theorem question_sanitize_single_quote_noop :
    question_sanitize "don't worry" = "don't worry" := by decide

/-- Claim C3: for every question and ranked rule list, `get_query`
invokes the matching operation exactly of the rules ranked up to and
including the first rule that yields a non-empty expression; no rule
ranked after the first successful match is evaluated. -/
theorem get_query_invokes_upto_first_match {W E U : Type} (app : QuepyApp W E U)
    (q lang : PyStr) (f : E → Except Exn PyStr) (words : List W)
    (pre : List (Rule W E U)) (r : Rule W E U) (post : List (Rule W E U))
    (hf : resolveSerializer app lang = some f)
    (ht : app.tagger (app.enc (question_sanitize q)) = Except.ok words)
    (hr : app.rules = pre ++ r :: post)
    (hpre : ∀ r' ∈ pre, ∃ u, r'.get_semantics words = Except.ok (none, u))
    (hm : ∃ e u, r.get_semantics words = Except.ok (some e, u)) :
    (get_query app q lang).invoked = pre ++ [r] := by
  rw [get_query_tagged app q lang f words hf ht]
  show (firstMatch f app.rules words).invoked = pre ++ [r]
  rw [hr]
  exact firstMatch_invoked_eq f words pre r post hpre hm

/-- Claim C3 (witness): with three ranked rules of which the second
matches, `get_query` invokes exactly the first two. -/
theorem get_query_invokes_upto_first_match_instance :
    (get_query w3app "abc" "sparql").invoked = [w3r1] ++ [w3r2] := by
  refine get_query_invokes_upto_first_match w3app "abc" "sparql" cexSer ["abc"]
    [w3r1] w3r2 [w3r3] rfl rfl rfl ?_ ?_
  · intro r' hr'
    rcases List.mem_singleton.mp hr' with rfl
    exact ⟨0, rfl⟩
  · exact ⟨7, 1, rfl⟩

/-- Claim C4: serializer resolution builds the name
`"expression_to_" ++ lower(query_lang)`, prefers the app-specific
printout module when it exposes that name, falls back to the global
module otherwise; when neither exposes it, both facade operations return
zero output with exactly the logged error, no invoked rules and no
escaping exception — for every tagger and rule list, so no tagging or
matching work happens — and when resolution succeeds the single resolved
function is the one threaded through the whole rule loop. -/
theorem serializer_resolution_policy {W E U : Type} (app : QuepyApp W E U)
    (q lang : PyStr) :
    (serializerName lang = "expression_to_" ++ pyLower lang) ∧
    (∀ pm f, app.printout_module = some pm → pm (serializerName lang) = some f →
      resolveSerializer app lang = some f) ∧
    ((app.printout_module = none ∨
      ∃ pm, app.printout_module = some pm ∧ pm (serializerName lang) = none) →
      resolveSerializer app lang = app.global_printout (serializerName lang)) ∧
    (resolveSerializer app lang = none →
      get_queries app q lang = ⟨[LogEvent.errorNoSerializer lang], [], [], none⟩ ∧
      get_query app q lang =
        ⟨[LogEvent.errorNoSerializer lang], [], (none, none, none), none⟩) ∧
    (∀ f words, resolveSerializer app lang = some f →
      app.tagger (app.enc q) = Except.ok words →
      get_queries app q lang =
        ⟨[], (pipeLoop f app.rules words).invoked, (pipeLoop f app.rules words).triples,
          (pipeLoop f app.rules words).exn⟩) := by
  refine ⟨rfl, ?_, ?_, ?_, ?_⟩
  · intro pm f h1 h2
    simp [resolveSerializer, h1, h2]
  · intro h
    rcases h with h | ⟨pm, h1, h2⟩
    · simp [resolveSerializer, h]
    · simp [resolveSerializer, h1, h2]
  · intro h
    exact ⟨get_queries_no_ser app q lang h, get_query_no_ser app q lang h⟩
  · intro f words h1 h2
    exact get_queries_tagged app q lang f words h1 h2

/-- Claim C4 (witness): on an application exposing no serializer for the
requested language, both facade operations short-circuit with the logged
error and empty output. -/
theorem serializer_resolution_policy_instance :
    get_queries w4app "q" "nosuch" = ⟨[LogEvent.errorNoSerializer "nosuch"], [], [], none⟩ ∧
    get_query w4app "q" "nosuch" =
      ⟨[LogEvent.errorNoSerializer "nosuch"], [], (none, none, none), none⟩ :=
  (serializer_resolution_policy w4app "q" "nosuch").2.2.2.1 rfl

/-- Claim C10: only the tagging/parse failure is caught inside the
pipeline: any other tagger exception, any exception of a rule's matching
operation (whether reached by `get_queries` or by `get_query`), and any
exception of the resolved serializer propagate to the caller. -/
theorem only_taggingError_caught {W E U : Type} (app : QuepyApp W E U)
    (q lang : PyStr) (f : E → Except Exn PyStr)
    (hf : resolveSerializer app lang = some f) :
    (∀ e, e ≠ Exn.taggingError → app.tagger (app.enc q) = Except.error e →
      (get_queries app q lang).exn = some e) ∧
    (∀ e, e ≠ Exn.taggingError →
      app.tagger (app.enc (question_sanitize q)) = Except.error e →
      (get_query app q lang).exn = some e) ∧
    (∀ words pre r post e, app.tagger (app.enc q) = Except.ok words →
      app.rules = pre ++ r :: post →
      (∀ r' ∈ pre, ∃ oe u, r'.get_semantics words = Except.ok (oe, u) ∧
        ∀ e', oe = some e' → ∃ s, f e' = Except.ok s) →
      r.get_semantics words = Except.error e →
      (get_queries app q lang).exn = some e) ∧
    (∀ words pre r post e u ex, app.tagger (app.enc q) = Except.ok words →
      app.rules = pre ++ r :: post →
      (∀ r' ∈ pre, ∃ oe u', r'.get_semantics words = Except.ok (oe, u') ∧
        ∀ e', oe = some e' → ∃ s, f e' = Except.ok s) →
      r.get_semantics words = Except.ok (some e, u) → f e = Except.error ex →
      (get_queries app q lang).exn = some ex) ∧
    (∀ words pre r post e, app.tagger (app.enc (question_sanitize q)) = Except.ok words →
      app.rules = pre ++ r :: post →
      (∀ r' ∈ pre, ∃ u, r'.get_semantics words = Except.ok (none, u)) →
      r.get_semantics words = Except.error e →
      (get_query app q lang).exn = some e) ∧
    (∀ words pre r post e u ex, app.tagger (app.enc (question_sanitize q)) = Except.ok words →
      app.rules = pre ++ r :: post →
      (∀ r' ∈ pre, ∃ u', r'.get_semantics words = Except.ok (none, u')) →
      r.get_semantics words = Except.ok (some e, u) → f e = Except.error ex →
      (get_query app q lang).exn = some ex) := by
  refine ⟨?_, ?_, ?_, ?_, ?_, ?_⟩
  · intro e hne ht
    rw [get_queries_tagger_fatal app q lang f e hf ht hne]
  · intro e hne ht
    rw [get_query_tagger_fatal app q lang f e hf ht hne]
  · intro words pre r post e ht hr hpre hrule
    rw [get_queries_tagged app q lang f words hf ht]
    show (pipeLoop f app.rules words).exn = some e
    rw [hr]
    exact pipeLoop_exn_rule_error f words pre r post e hpre hrule
  · intro words pre r post e u ex ht hr hpre hrule hser
    rw [get_queries_tagged app q lang f words hf ht]
    show (pipeLoop f app.rules words).exn = some ex
    rw [hr]
    exact pipeLoop_exn_ser_error f words pre r post e u ex hpre hrule hser
  · intro words pre r post e ht hr hpre hrule
    rw [get_query_tagged app q lang f words hf ht]
    show (firstMatch f app.rules words).exn = some e
    rw [hr]
    exact firstMatch_exn_rule_error f words pre r post e hpre hrule
  · intro words pre r post e u ex ht hr hpre hrule hser
    rw [get_query_tagged app q lang f words hf ht]
    show (firstMatch f app.rules words).exn = some ex
    rw [hr]
    exact firstMatch_exn_ser_error f words pre r post e u ex hpre hrule hser

/-- Claim C10 (witness): a tagger exception other than `TaggingError`
escapes both facade operations. -/
theorem only_taggingError_caught_instance :
    (get_queries w10app "x" "sparql").exn = some (Exn.other 3) ∧
    (get_query w10app "x" "sparql").exn = some (Exn.other 3) := by
  obtain ⟨h1, h2, _, _, _, _⟩ := only_taggingError_caught w10app "x" "sparql" cexSer rfl
  exact ⟨h1 (Exn.other 3) (by simp) rfl, h2 (Exn.other 3) (by simp) rfl⟩

/-- Claim C7: after propagation, the shared settings namespace maps every
attribute of the application settings namespace whose name equals its own
upper-casing (Python's `key.upper() == key` test) to that attribute's
value, encoding-normalized when textual; entries under any other name are
left exactly as they were (in particular, starting from an empty shared
namespace they are absent). -/
theorem settings_propagation (enc : PyStr → PyStr) (m : List (PyStr × Value))
    (sh : PyStr → Option Value) (hn : (m.map Prod.fst).Nodup) :
    (∀ k v, (k, v) ∈ m → pyUpper k = k →
      saveSettingsValues enc m sh k = some (normalizeValue enc v)) ∧
    (∀ k, ¬ pyUpper k = k → saveSettingsValues enc m sh k = sh k) ∧
    (∀ s, normalizeValue enc (Value.str s) = Value.str (enc s)) ∧
    (∀ n, normalizeValue enc (Value.other n) = Value.other n) := by
  refine ⟨?_, ?_, fun s => rfl, fun n => rfl⟩
  · intro k v hm hu
    have hv : getattrNs m k = some v := getattrNs_of_mem_nodup m k v hn hm
    have hk : k ∈ m.map Prod.fst := List.mem_map.mpr ⟨(k, v), hm, rfl⟩
    have hkd : k ∈ dirNames m :=
      (perm_sortAscBy nameLe (m.map Prod.fst)).mem_iff.mpr hk
    have hnd : (dirNames m).Nodup :=
      ((perm_sortAscBy nameLe (m.map Prod.fst)).nodup_iff).mpr hn
    exact settingsLoop_mem_upper enc m k v hu hv (dirNames m) sh hnd hkd
  · intro k hk
    exact settingsLoop_not_upper enc m k hk (dirNames m) sh

/-- Claim C7 (witness): with `FOO = "bar"` and `_private = 1` in the
application settings namespace and an empty shared namespace, `FOO` is
propagated as `"bar"` and `_private` is absent. -/
theorem settings_propagation_instance :
    saveSettingsValues id w7m (fun _ => none) "FOO" = some (Value.str "bar") ∧
    saveSettingsValues id w7m (fun _ => none) "_private" = none := by
  obtain ⟨h1, h2, _, _⟩ := settings_propagation id w7m (fun _ => none) (by decide)
  exact ⟨h1 "FOO" (Value.str "bar") (by decide) (by decide), h2 "_private" (by decide)⟩

/-- Claim C8 (amended): during registry construction, namespace symbols
that are not qualifying rule definitions (non-types, the base class, or
other types) are silently excluded; a qualifying definition whose
zero-argument instantiation raises a `TypeError` is also silently
excluded — the `except TypeError` around the whole discovery body
swallows it — while any other instantiation failure propagates as fatal
out of the construction. -/
theorem discover_error_policy {W E U : Type} (ns : List (PyStr × NsSym W E U))
    (k : PyStr) (ks : List PyStr) :
    (∀ s, getattrNs ns k = some s → qualifies s = false →
      discoverLoop ns (k :: ks) = discoverLoop ns ks) ∧
    (∀ c, getattrNs ns k = some (NsSym.ruleClass c) →
      c.init = Except.error Exn.typeError →
      discoverLoop ns (k :: ks) = discoverLoop ns ks) ∧
    (∀ c e, getattrNs ns k = some (NsSym.ruleClass c) → c.init = Except.error e →
      e ≠ Exn.typeError → discoverLoop ns (k :: ks) = Except.error e) ∧
    (∀ e, discoverRules ns = Except.error e → buildRules ns = Except.error e) := by
  refine ⟨?_, ?_, ?_, ?_⟩
  · intro s hg hq
    cases s with
    | ruleClass c => simp [qualifies] at hq
    | base => exact discoverLoop_cons_base ns k ks hg
    | otherType => exact discoverLoop_cons_otherType ns k ks hg
    | nonType => exact discoverLoop_cons_nonType ns k ks hg
  · intro c hg hc
    exact discoverLoop_cons_typeError ns k ks c hg hc
  · intro c e hg hc hne
    exact discoverLoop_cons_fatal ns k ks c e hg hc hne
  · intro e h
    simp [buildRules, h]

/-- Claim C8 (witness): a qualifying definition whose instantiation
raises an exception that is not a `TypeError` makes the whole registry
construction fail with that exception. -/
theorem discover_error_policy_instance :
    buildRules ns8b = Except.error (Exn.other 7) := by
  obtain ⟨_, _, h3, h4⟩ := discover_error_policy ns8b "Crash" []
  refine h4 (Exn.other 7) ?_
  show discoverLoop ns8b (dirNames ns8b) = Except.error (Exn.other 7)
  exact h3 ⟨Except.error (Exn.other 7)⟩ (Exn.other 7) rfl rfl (by simp)

/-- Claim C8 (counterexample): the sole namespace symbol is a qualifying
rule definition whose zero-argument instantiation raises `TypeError`,
yet construction succeeds with an empty rule list — the instantiation
failure was silently swallowed instead of propagating as fatal. -/
theorem instantiation_typeError_swallowed :
    getattrNs ns8 "Bad" =
      some (NsSym.ruleClass ⟨Except.error Exn.typeError⟩) ∧
    buildRules ns8 = Except.ok ([] : List (Rule Unit Unit Unit)) :=
  ⟨rfl, rfl⟩

/-- Claim C1 (amended): for every rule namespace whose qualifying
definitions (concrete subclasses of the base capability, excluding the
base itself) all instantiate without raising, construction builds a
ranked list with exactly as many entries as there are qualifying
definitions, sorted by weight descending with equal-weight entries
keeping their relative discovery order (shown on the position-tagged
list, which projects back onto the built list), and the fully consumed
compilation pipeline emits its matches exactly in that rank order. -/
theorem ranked_rules_sorted_stable {W E U : Type} (ns : List (PyStr × NsSym W E U))
    (d : List (Rule W E U))
    (hn : (ns.map Prod.fst).Nodup)
    (hd : discoverRules ns = Except.ok d)
    (hall : ∀ p ∈ ns, ∀ c, p.2 = NsSym.ruleClass c → ∃ r, c.init = Except.ok r) :
    buildRules ns = Except.ok (pySortDesc ruleW d) ∧
    (pySortDesc ruleW d).length = countQualifying ns ∧
    pySortDesc ruleW d = (pySortDesc (fun p => ruleW p.2) (withIdx 0 d)).map Prod.snd ∧
    (pySortDesc (fun p => ruleW p.2) (withIdx 0 d)).Pairwise
      (fun p q => ruleW q.2 ≤ ruleW p.2 ∧ (ruleW p.2 = ruleW q.2 → p.1 < q.1)) ∧
    (∀ (f : E → Except Exn PyStr) (ws : List W),
      (pipeLoop f (pySortDesc ruleW d) ws).exn = none →
      (pipeLoop f (pySortDesc ruleW d) ws).triples =
        (pySortDesc ruleW d).filterMap (fun r =>
          match r.get_semantics ws with
          | Except.ok (some e, u) =>
            match f e with
            | Except.ok q => some ((none, some q, some u) : Triple U)
            | Except.error _ => none
          | _ => none)) := by
  refine ⟨by simp [buildRules, hd], ?_, ?_, ?_, ?_⟩
  · have hall2 : ∀ (k : PyStr) (c : RuleClassDef W E U),
        getattrNs ns k = some (NsSym.ruleClass c) → ∃ r, c.init = Except.ok r := by
      intro k c hg
      exact hall (k, NsSym.ruleClass c) (getattrNs_mem ns k _ hg) c rfl
    obtain ⟨l, hl, hlen⟩ := discoverLoop_allOk ns hall2 (dirNames ns)
    have hld : l = d := by
      have : Except.ok l = Except.ok d := hl.symm.trans hd
      cases this
      rfl
    subst hld
    rw [length_pySortDesc, hlen]
    have hperm := (perm_sortAscBy nameLe (ns.map Prod.fst)).filter (isRuleAttr ns)
    rw [show dirNames ns = sortAscBy nameLe (ns.map Prod.fst) from rfl]
    rw [hperm.length_eq]
    exact filter_names_count ns hn
  · rw [map_snd_pySortDesc ruleW (withIdx 0 d), map_snd_withIdx 0 d]
  · have hpre : (withIdx 0 d).Pairwise
        (fun p q => ruleW p.2 = ruleW q.2 → p.1 < q.1) := by
      refine List.Pairwise.imp ?_ (pairwise_withIdx 0 d)
      intro a b h hx
      exact h
    exact pairwise_pySortDesc (fun p => ruleW p.2) (fun p q => p.1 < q.1)
      (withIdx 0 d) hpre
  · intro f ws h
    exact pipeLoop_triples_of_ok f ws (pySortDesc ruleW d) h

/-- Claim C1 (counterexample): a namespace with exactly one qualifying
rule definition, whose zero-argument instantiation raises `TypeError`.
Construction succeeds but the ranked list has zero entries, not one. -/
theorem ranked_list_misses_typeError_rule :
    countQualifying ns1 = 1 ∧
    buildRules ns1 = Except.ok ([] : List (Rule Unit Unit Unit)) :=
  ⟨rfl, rfl⟩

/-- Claim C1 (witness): the three-rule namespace (weights 5, 5, 9 under
names `RuleB`, `RuleA`, `RuleC`, plus the base class and a non-type)
builds a three-entry ranked list and the pipeline emits its matches in
rank order. -/
theorem ranked_rules_sorted_stable_instance :
    buildRules w1ns = Except.ok (pySortDesc ruleW w1d) ∧
    (pySortDesc ruleW w1d).length = countQualifying w1ns ∧
    (pipeLoop w1f (pySortDesc ruleW w1d) [()]).triples =
      (pySortDesc ruleW w1d).filterMap (fun r =>
        match r.get_semantics [()] with
        | Except.ok (some e, u) =>
          match w1f e with
          | Except.ok q => some ((none, some q, some u) : Triple Unit)
          | Except.error _ => none
        | _ => none) := by
  have h := ranked_rules_sorted_stable w1ns w1d (by decide) rfl ?_
  · exact ⟨h.1, h.2.1, h.2.2.2.2 w1f [()] rfl⟩
  · intro p hp c hc
    simp only [w1ns, List.mem_cons, List.not_mem_nil, or_false] at hp
    rcases hp with rfl | rfl | rfl | rfl | rfl <;> cases hc <;> exact ⟨_, rfl⟩

/-- Claim C9: the namespace is enumerated in strictly ascending
lexicographic name order (`dir()` is sorted), so the discovered rules,
tagged with their defining names, are stably sorted by weight with
equal-weight entries in ascending name order; projecting the names away
gives exactly the ranked list the application builds. -/
theorem ranked_ties_alphabetical {W E U : Type} (ns : List (PyStr × NsSym W E U))
    (drs : List (PyStr × Rule W E U))
    (hn : (ns.map Prod.fst).Nodup)
    (hd : discoverRulesNamed ns = Except.ok drs) :
    (dirNames ns).Pairwise (fun a b => nameLe a b = true ∧ a ≠ b) ∧
    buildRules ns = Except.ok ((pySortDesc (fun p => ruleW p.2) drs).map Prod.snd) ∧
    (pySortDesc (fun p => ruleW p.2) drs).Pairwise
      (fun p q => ruleW p.2 = ruleW q.2 → (nameLe p.1 q.1 = true ∧ p.1 ≠ q.1)) := by
  have hsorted := dirNames_sorted ns hn
  refine ⟨hsorted, ?_, ?_⟩
  · have hd2 : discoverRules ns = Except.ok (drs.map Prod.snd) := by
      show discoverLoop ns (dirNames ns) = _
      rw [discoverLoop_eq_named ns (dirNames ns)]
      show Except.map _ (discoverRulesNamed ns) = _
      rw [hd]
      rfl
    rw [show buildRules ns =
      (match discoverRules ns with
        | Except.ok rs => Except.ok (pySortDesc ruleW rs)
        | Except.error e => Except.error e) from rfl, hd2]
    rw [map_snd_pySortDesc ruleW drs]
  · have hsub := discoverLoopNamed_fst_sublist ns (dirNames ns) drs hd
    have hnames : (drs.map Prod.fst).Pairwise (fun a b => nameLe a b = true ∧ a ≠ b) :=
      hsorted.sublist hsub
    have hpair : drs.Pairwise (fun p q => nameLe p.1 q.1 = true ∧ p.1 ≠ q.1) :=
      List.pairwise_map.mp hnames
    have hpre : drs.Pairwise
        (fun p q => ruleW p.2 = ruleW q.2 → (nameLe p.1 q.1 = true ∧ p.1 ≠ q.1)) := by
      refine List.Pairwise.imp ?_ hpair
      intro a b h hx
      exact h
    have h := pairwise_pySortDesc (fun p => ruleW p.2)
      (fun p q => nameLe p.1 q.1 = true ∧ p.1 ≠ q.1) drs hpre
    exact List.Pairwise.imp (fun hh => hh.2) h

/-- Claim C9 (witness): two equal-weight rules defined under names `B`
and `A` are discovered in the order `A`, `B` and ranked alphabetically. -/
theorem ranked_ties_alphabetical_instance :
    buildRules w9ns = Except.ok ((pySortDesc (fun p => ruleW p.2) w9drs).map Prod.snd) ∧
    (pySortDesc (fun p => ruleW p.2) w9drs).Pairwise
      (fun p q => ruleW p.2 = ruleW q.2 → (nameLe p.1 q.1 = true ∧ p.1 ≠ q.1)) := by
  obtain ⟨_, h2, h3⟩ := ranked_ties_alphabetical w9ns w9drs (by decide) rfl
  exact ⟨h2, h3⟩
